import Mathlib

/-!
Verification of the workflow generator in `generate_workflow.go`
(ciscops/cisco-workflows-netbox).

Shallow embedding conventions:
* Go `map[string]T` values are modelled as association lists
  `List (String × T)`; the list order models the (arbitrary) iteration
  order of the Go map.  Where the Go code sorts keys before iterating
  (`sortedSchemaKeys`, `sort.Strings`, `sort.Slice`), the embedding sorts.
* Go strings are Lean `String`s; character-level helpers work on
  `List Char` (the inputs handled by the generator are ASCII, where Go's
  byte indexing and Lean's character indexing agree, and Go's bytewise
  string order coincides with the codepoint order used here).
* Recursions that are not structural in the Go source carry an explicit
  fuel argument (initialised to the input length), keeping every
  definition computable by the kernel.
* Mutable package-level globals (`supportIdempotency`, filters, …) are
  threaded as explicit parameters or as a `GlobalState` record.
-/

namespace WorkflowGen

/-- Single quote character, used when embedding literal Go/Python strings. -/
def sq : String := String.mk [Char.ofNat 39]

/-- Opening curly brace character, for embedded literal strings. -/
def obr : String := String.mk [Char.ofNat 123]

/-- Closing curly brace character, for embedded literal strings. -/
def cbr : String := String.mk [Char.ofNat 125]

/-- `sub` occurs as a contiguous sublist of `s`. -/
def listIsInfixOf (sub : List Char) : List Char → Bool
  | [] => sub.isEmpty
  | c :: cs => sub.isPrefixOf (c :: cs) || listIsInfixOf sub cs

/-- Go `strings.Contains`. -/
def goContains (s sub : String) : Bool := listIsInfixOf sub.toList s.toList

/-- Go `strings.ToLower` (ASCII). -/
def goToLower (s : String) : String := String.mk (s.toList.map Char.toLower)

/-- Go `strings.EqualFold` (ASCII case-insensitive equality). -/
def goEqualFold (a b : String) : Bool := goToLower a == goToLower b

/-- The whitespace class of Go's `\s` regex and `strings.TrimSpace` (ASCII). -/
def isSpaceChar (c : Char) : Bool :=
  c == ' ' || c == Char.ofNat 9 || c == Char.ofNat 10 || c == Char.ofNat 11 ||
  c == Char.ofNat 12 || c == Char.ofNat 13

/-- Go `strings.TrimSpace` on a character list. -/
def trimSpaceList (cs : List Char) : List Char :=
  ((cs.dropWhile isSpaceChar).reverse.dropWhile isSpaceChar).reverse

/-- Go `strings.TrimSpace`. -/
def goTrimSpace (s : String) : String := String.mk (trimSpaceList s.toList)

/-- `whitespaceRegex.ReplaceAllString s " "`: collapse each maximal
whitespace run to a single space.  The Bool flag records whether the
previous character was part of a whitespace run. -/
def collapseSpacesAux : Bool → List Char → List Char
  | _, [] => []
  | inRun, c :: cs =>
    if isSpaceChar c then
      (if inRun then [] else [' ']) ++ collapseSpacesAux true cs
    else c :: collapseSpacesAux false cs

def collapseSpaces (cs : List Char) : List Char := collapseSpacesAux false cs

/-- The camel-case split loop of `HumanReadableName`: insert a space before
an upper-case letter whose predecessor (in the original text) is not a
space.  The first character is emitted unconditionally by the wrapper. -/
def insertCamelSpacesAux : Char → List Char → List Char
  | _, [] => []
  | prev, c :: cs =>
    if 'A' ≤ c ∧ c ≤ 'Z' ∧ prev ≠ ' ' then ' ' :: c :: insertCamelSpacesAux c cs
    else c :: insertCamelSpacesAux c cs

def insertCamelSpaces : List Char → List Char
  | [] => []
  | c :: cs => c :: insertCamelSpacesAux c cs

/-- Go `strings.Title` (on already lower-cased ASCII input): capitalise a
letter that is not preceded by a letter.  The flag records whether the
previous character was a letter. -/
def titleWordsAux : Bool → List Char → List Char
  | _, [] => []
  | prevIsLetter, c :: cs =>
    (if c.isAlpha ∧ ¬prevIsLetter then c.toUpper else c) :: titleWordsAux c.isAlpha cs

def titleWords (cs : List Char) : List Char := titleWordsAux false cs

/-- Go `strings.ReplaceAll` for a non-empty pattern, with fuel (the wrapper
passes the text length, which always suffices since each step consumes at
least one character). -/
def replaceSubGo (pat rep : List Char) : Nat → List Char → List Char
  | 0, l => l
  | _ + 1, [] => []
  | fuel + 1, c :: cs =>
    if pat ≠ [] ∧ pat.isPrefixOf (c :: cs) then
      rep ++ replaceSubGo pat rep fuel ((c :: cs).drop pat.length)
    else c :: replaceSubGo pat rep fuel cs

def replaceSub (pat rep cs : List Char) : List Char := replaceSubGo pat rep cs.length cs

/-- `HumanReadableName` from the source: underscores/hyphens to spaces,
trim, collapse whitespace, split camel case, lower-case then title-case,
and normalize "Partial Update" to "Update". -/
def HumanReadableName (name : String) : String :=
  let cs := name.toList.map fun c => if c = '_' ∨ c = '-' then ' ' else c
  let cs := collapseSpaces (trimSpaceList cs)
  let cs := insertCamelSpaces cs
  let cs := titleWords (cs.map Char.toLower)
  String.mk (replaceSub "Partial Update".toList "Update".toList cs)

/-- The `contains` helper of the source (Go slice membership). -/
def contains (slice : List String) (value : String) : Bool := slice.any (· == value)

/-! ### Go string ordering

`sort.Strings` sorts by Go's `<` on strings, which is bytewise
lexicographic; on UTF-8 text that coincides with codepoint-lexicographic
order, implemented here on character lists. -/

def listCharLE : List Char → List Char → Bool
  | [], _ => true
  | _ :: _, [] => false
  | a :: as, b :: bs =>
    if a.toNat < b.toNat then true
    else if b.toNat < a.toNat then false
    else listCharLE as bs

/-- Go string `<=`. -/
def stringLE (a b : String) : Bool := listCharLE a.toList b.toList

/-- Go string `<=` as a relation. -/
def strle (a b : String) : Prop := stringLE a b = true

instance : DecidableRel strle := fun a b =>
  inferInstanceAs (Decidable (stringLE a b = true))

theorem listCharLE_refl : ∀ as, listCharLE as as = true := by
  intro as
  induction as with
  | nil => rfl
  | cons a as ih => simp [listCharLE, ih]

theorem listCharLE_total : ∀ as bs,
    listCharLE as bs = true ∨ listCharLE bs as = true := by
  intro as
  induction as with
  | nil => intro bs; left; rfl
  | cons a as ih =>
    intro bs
    cases bs with
    | nil => right; rfl
    | cons b bs =>
      rcases Nat.lt_trichotomy a.toNat b.toNat with h | h | h
      · left; simp [listCharLE, h]
      · simp only [listCharLE, h, Nat.lt_irrefl, if_false, ite_false]
        exact ih bs
      · right; simp [listCharLE, h]

theorem listCharLE_trans : ∀ as bs cs, listCharLE as bs = true →
    listCharLE bs cs = true → listCharLE as cs = true := by
  intro as
  induction as with
  | nil => intro bs cs _ _; rfl
  | cons a as ih =>
    intro bs cs h1 h2
    cases bs with
    | nil => simp [listCharLE] at h1
    | cons b bs =>
      cases cs with
      | nil => simp [listCharLE] at h2
      | cons c cs =>
        rcases Nat.lt_trichotomy a.toNat b.toNat with hab | hab | hab
        · rcases Nat.lt_trichotomy b.toNat c.toNat with hbc | hbc | hbc
          · simp [listCharLE, Nat.lt_trans hab hbc]
          · simp [listCharLE, hbc ▸ hab]
          · simp [listCharLE, Nat.lt_asymm hbc, hbc] at h2
        · rcases Nat.lt_trichotomy b.toNat c.toNat with hbc | hbc | hbc
          · simp [listCharLE, hab ▸ hbc]
          · have hac : a.toNat = c.toNat := hab.trans hbc
            simp only [listCharLE, hac ▸ Nat.lt_irrefl c.toNat, if_false,
              ite_false] at h1 h2 ⊢
            simp only [listCharLE, hab, hbc, Nat.lt_irrefl, ite_false,
              if_false, ite_self] at h1 h2 ⊢
            exact ih bs cs h1 h2
          · simp [listCharLE, Nat.lt_asymm hbc, hbc] at h2
        · simp [listCharLE, Nat.lt_asymm hab, hab] at h1

theorem listCharLE_antisymm : ∀ as bs, listCharLE as bs = true →
    listCharLE bs as = true → as = bs := by
  intro as
  induction as with
  | nil =>
    intro bs _ h2
    cases bs with
    | nil => rfl
    | cons b bs => simp [listCharLE] at h2
  | cons a as ih =>
    intro bs h1 h2
    cases bs with
    | nil => simp [listCharLE] at h1
    | cons b bs =>
      rcases Nat.lt_trichotomy a.toNat b.toNat with hab | hab | hab
      · simp [listCharLE, Nat.lt_asymm hab, hab] at h2
      · have hchar : a = b := by
          have := congrArg Char.ofNat hab
          rwa [Char.ofNat_toNat, Char.ofNat_toNat] at this
        subst hchar
        simp only [listCharLE, Nat.lt_irrefl, if_false, ite_false,
          ite_self] at h1 h2
        rw [ih bs h1 h2]
      · simp [listCharLE, Nat.lt_asymm hab, hab] at h1

instance : IsTotal String strle :=
  ⟨fun a b => listCharLE_total a.toList b.toList⟩

instance : IsTrans String strle :=
  ⟨fun a b c h1 h2 => listCharLE_trans a.toList b.toList c.toList h1 h2⟩

instance : IsAntisymm String strle :=
  ⟨fun a b h1 h2 => by
    have h := listCharLE_antisymm a.toList b.toList h1 h2
    cases a; cases b
    exact congrArg String.mk h⟩

instance : IsRefl String strle := ⟨fun a => listCharLE_refl a.toList⟩

/-! ## The OpenAPI data model (`Schema`, `Operation` fragments) -/

/-- The `Schema` struct: `$ref`, `type`, `properties`, `items`,
`description`, `enum`, `required`.  `properties` is an association list
whose order models Go map iteration order; `enum` values are modelled as
their `fmt.Sprint` rendering. -/
inductive Schema where
  | mk (ref : String) (type : String) (properties : List (String × Schema))
       (items : Option Schema) (description : String) (enum : List String)
       (required : List String)

def Schema.ref : Schema → String
  | .mk r _ _ _ _ _ _ => r

def Schema.type : Schema → String
  | .mk _ t _ _ _ _ _ => t

def Schema.properties : Schema → List (String × Schema)
  | .mk _ _ p _ _ _ _ => p

def Schema.items : Schema → Option Schema
  | .mk _ _ _ i _ _ _ => i

def Schema.description : Schema → String
  | .mk _ _ _ _ d _ _ => d

def Schema.enum : Schema → List String
  | .mk _ _ _ _ _ e _ => e

def Schema.required : Schema → List String
  | .mk _ _ _ _ _ _ r => r

/-- The zero value of the `Schema` struct. -/
def Schema.empty : Schema := .mk "" "" [] none "" [] []

/-- `components.schemas`: named component schemas. -/
structure Components where
  schemas : List (String × Schema)

/-- The part of the parsed OpenAPI document the resolver consults. -/
structure OpenAPISpec where
  components : Components

/-- `sortedSchemaKeys`: the keys of a properties map, sorted ascending
(Go `sort.Strings`). -/
def sortedSchemaKeys (props : List (String × Schema)) : List String :=
  (props.map Prod.fst).insertionSort strle

/-! ## SchemaResolver (`resolveSchemaRefsWithHistory`) -/

/-- `extractSchemaRefName`: the last `/`-separated component of a `$ref`
(`parts[len(parts)-1]` of `strings.Split(ref, "/")`, which is the suffix
after the last slash — the whole string when no slash occurs). -/
def extractSchemaRefName (ref : String) : String :=
  if ref = "" then ""
  else String.mk ((ref.toList.reverse.takeWhile fun c => c ≠ '/').reverse)

/-- The `for key, propSchema := range schema.Properties` loop of the
resolver: resolve every property value, keeping keys and order. -/
def resolvePropList (f : Schema → Option Schema) :
    List (String × Schema) → Option (List (String × Schema))
  | [] => some []
  | kv :: rest =>
    (f kv.2).bind fun v =>
    (resolvePropList f rest).map fun vs => (kv.1, v) :: vs

/-- `resolveSchemaRefsWithHistory`, with an explicit fuel argument
modelling the Go call stack (the recursion of the source is not
structural: following a reference jumps to an arbitrary component
schema).  `none` means the fuel was exhausted — the termination theorem
shows a computable fuel bound on which this never happens.
`history` is the set of currently-active reference names. -/
def resolveSchemaRefsWithHistory (spec : OpenAPISpec) :
    Nat → List String → Schema → Option Schema
  | 0, _, _ => none
  | fuel + 1, history, s =>
    if s.ref ≠ "" ∧ extractSchemaRefName s.ref ≠ "" ∧
        history.contains (extractSchemaRefName s.ref) then
      some s
    else if s.ref ≠ "" ∧ extractSchemaRefName s.ref ≠ "" ∧
        (spec.components.schemas.lookup (extractSchemaRefName s.ref)).isSome then
      resolveSchemaRefsWithHistory spec fuel (extractSchemaRefName s.ref :: history)
        ((spec.components.schemas.lookup (extractSchemaRefName s.ref)).getD s)
    else
      (match s.items with
        | none => some none
        | some it =>
          (resolveSchemaRefsWithHistory spec fuel history it).map some).bind
        fun items' =>
      (resolvePropList (resolveSchemaRefsWithHistory spec fuel history)
          s.properties).bind fun props' =>
      some (Schema.mk s.ref s.type props' items' s.description s.enum s.required)

/-- Component names of the spec. -/
def componentNames (spec : OpenAPISpec) : List String :=
  spec.components.schemas.map Prod.fst

/-- Number of component names not yet on the active path. -/
def freshCount (spec : OpenAPISpec) (history : List String) : Nat :=
  ((componentNames spec).filter fun k => !(history.contains k)).length

/-- Structural size of a schema tree (used only for the resolver's
termination bound). -/
def Schema.size : Schema → Nat
  | .mk _ _ props items _ _ _ =>
    1 + (props.attach.map fun kv => Schema.size kv.1.2).sum +
      (match items with
        | none => 0
        | some s => Schema.size s)
termination_by s => sizeOf s
decreasing_by
  all_goals first
  | · obtain ⟨⟨a, b⟩, hm⟩ := kv
      have h1 := List.sizeOf_lt_of_mem hm
      simp only [Prod.mk.sizeOf_spec] at h1
      simp only [Schema.mk.sizeOf_spec]
      omega
  | · simp only [Schema.mk.sizeOf_spec, Option.some.sizeOf_spec]
      omega

/-- An upper bound on the size of any component schema. -/
def maxComponentSize (spec : OpenAPISpec) : Nat :=
  spec.components.schemas.foldr (fun kv acc => max kv.2.size acc) 0

/-- Termination measure for the resolver: following a reference strictly
shrinks the first summand, descending into items/properties strictly
shrinks the second. -/
def resolveMeasure (spec : OpenAPISpec) (history : List String) (s : Schema) : Nat :=
  freshCount spec history * (maxComponentSize spec + 1) + s.size

/-! ### Resolver lemmas -/

theorem lookup_mem {k : String} {v : Schema} :
    ∀ {l : List (String × Schema)}, l.lookup k = some v → (k, v) ∈ l := by
  intro l
  induction l with
  | nil => intro h; simp [List.lookup] at h
  | cons hd tl ih =>
    intro h
    obtain ⟨a, b⟩ := hd
    rw [List.lookup] at h
    cases hk : (k == a) with
    | true =>
      simp only [hk] at h
      have hk' : k = a := by simpa using hk
      have hv : b = v := by simpa using h
      rw [hk', ← hv]
      exact List.mem_cons_self _ _
    | false =>
      simp only [hk] at h
      exact List.mem_cons_of_mem _ (ih h)

theorem size_le_foldrMax {k : String} {v : Schema} :
    ∀ l : List (String × Schema), (k, v) ∈ l →
      v.size ≤ l.foldr (fun kv acc => max kv.2.size acc) 0 := by
  intro l
  induction l with
  | nil => intro h; simp at h
  | cons hd tl ih =>
    intro h
    rcases List.mem_cons.mp h with h | h
    · rw [List.foldr_cons, ← h]
      exact le_max_left _ _
    · rw [List.foldr_cons]
      exact le_trans (ih h) (le_max_right _ _)

theorem size_le_maxComponentSize {spec : OpenAPISpec} {k : String} {v : Schema}
    (h : (k, v) ∈ spec.components.schemas) : v.size ≤ maxComponentSize spec :=
  size_le_foldrMax _ h

theorem filter_length_mono {α : Type} (p q : α → Bool)
    (hpq : ∀ x, p x = true → q x = true) (l : List α) :
    (l.filter p).length ≤ (l.filter q).length := by
  induction l with
  | nil => simp
  | cons hd tl ih =>
    by_cases hp : p hd
    · simp only [List.filter_cons, if_pos hp, if_pos (hpq hd hp), List.length_cons]
      omega
    · rw [List.filter_cons, if_neg (by simpa using hp), List.filter_cons]
      by_cases hq : q hd
      · rw [if_pos hq]
        exact Nat.le_succ_of_le ih
      · rw [if_neg (by simpa using hq)]
        exact ih

theorem filter_fresh_lt {history : List String} {refName : String}
    (hact : history.contains refName = false) :
    ∀ l : List String, refName ∈ l →
      (l.filter fun k => !((refName :: history).contains k)).length <
        (l.filter fun k => !(history.contains k)).length := by
  have hmono : ∀ x : String, (!((refName :: history).contains x)) = true →
      (!(history.contains x)) = true := by
    intro x hx
    simp only [List.contains_cons, Bool.not_eq_true', Bool.or_eq_false_iff] at hx
    simp only [Bool.not_eq_true', hx.2]
  intro l
  induction l with
  | nil => intro hmem; simp at hmem
  | cons hd tl ih =>
    intro hmem
    rcases List.mem_cons.mp hmem with h | h
    · subst h
      rw [List.filter_cons, List.filter_cons]
      rw [if_neg (by simp), if_pos (by simp only [Bool.not_eq_true', hact])]
      exact Nat.lt_succ_of_le (filter_length_mono _ _ hmono tl)
    · rw [List.filter_cons, List.filter_cons]
      by_cases hrh : (!((refName :: history).contains hd)) = true
      · rw [if_pos hrh, if_pos (hmono hd hrh)]
        simpa using ih h
      · rw [if_neg (by simpa using hrh)]
        by_cases hh : (!(history.contains hd)) = true
        · rw [if_pos hh]
          exact Nat.lt_succ_of_le (Nat.le_of_lt (ih h))
        · rw [if_neg (by simpa using hh)]
          exact ih h

theorem freshCount_lt {spec : OpenAPISpec} {history : List String} {refName : String}
    (hmem : refName ∈ componentNames spec)
    (hact : history.contains refName = false) :
    freshCount spec (refName :: history) < freshCount spec history :=
  filter_fresh_lt hact _ hmem

theorem Schema.size_mk_some (r t d : String) (props : List (String × Schema))
    (it : Schema) (e req : List String) :
    Schema.size (.mk r t props (some it) d e req)
      = 1 + (props.attach.map fun kv => Schema.size kv.1.2).sum + it.size := by
  rw [Schema.size.eq_def]

theorem Schema.size_mk_none (r t d : String) (props : List (String × Schema))
    (e req : List String) :
    Schema.size (.mk r t props none d e req)
      = 1 + (props.attach.map fun kv => Schema.size kv.1.2).sum + 0 := by
  rw [Schema.size.eq_def]

theorem size_items_lt {s : Schema} {it : Schema} (h : s.items = some it) :
    it.size < s.size := by
  cases s with
  | mk r t props items d e req =>
    simp only [Schema.items] at h
    subst h
    rw [Schema.size_mk_some]
    omega

theorem size_prop_lt {s : Schema} {kv : String × Schema} (h : kv ∈ s.properties) :
    kv.2.size < s.size := by
  cases s with
  | mk r t props items d e req =>
    simp only [Schema.properties] at h
    have hmem : kv.2.size ∈ props.attach.map fun x => Schema.size x.1.2 :=
      List.mem_map_of_mem _ (List.mem_attach props ⟨kv, h⟩)
    have hle := List.single_le_sum (l := props.attach.map fun x => Schema.size x.1.2)
      (fun x _ => Nat.zero_le x) _ hmem
    cases items with
    | none => rw [Schema.size_mk_none]; omega
    | some it => rw [Schema.size_mk_some]; omega

theorem resolvePropList_isSome (f : Schema → Option Schema)
    (l : List (String × Schema)) (h : ∀ kv ∈ l, (f kv.2).isSome) :
    (resolvePropList f l).isSome := by
  induction l with
  | nil => rfl
  | cons hd tl ih =>
    rw [resolvePropList]
    obtain ⟨v, hv⟩ := Option.isSome_iff_exists.mp (h hd (by simp))
    obtain ⟨vs, hvs⟩ :=
      Option.isSome_iff_exists.mp (ih fun x hx => h x (by simp [hx]))
    rw [hv, hvs]
    rfl

theorem resolveFuel_isSome (spec : OpenAPISpec) :
    ∀ (n : Nat) (history : List String) (s : Schema),
      resolveMeasure spec history s < n →
      (resolveSchemaRefsWithHistory spec n history s).isSome := by
  intro n
  induction n with
  | zero => intro history s h; omega
  | succ n ih =>
    intro history s hm
    rw [resolveSchemaRefsWithHistory]
    split
    · rfl
    · next hA =>
      split
      · next hR =>
        obtain ⟨v, hv⟩ := Option.isSome_iff_exists.mp hR.2.2
        rw [hv]
        apply ih
        -- measure strictly drops: one fewer fresh component, size bounded.
        have hact : history.contains (extractSchemaRefName s.ref) = false := by
          rcases Bool.eq_false_or_eq_true
            (history.contains (extractSchemaRefName s.ref)) with h | h
          · exact absurd ⟨hR.1, hR.2.1, h⟩ hA
          · exact h
        have hmem : extractSchemaRefName s.ref ∈ componentNames spec := by
          unfold componentNames
          exact List.mem_map_of_mem Prod.fst (lookup_mem hv)
        have hfc := freshCount_lt hmem hact
        have hsz : v.size ≤ maxComponentSize spec :=
          size_le_maxComponentSize (lookup_mem hv)
        unfold resolveMeasure at hm ⊢
        simp only [Option.getD_some]
        set f := freshCount spec history with hf
        set f' := freshCount spec (extractSchemaRefName s.ref :: history) with hf'
        set M := maxComponentSize spec with hM
        have h1 : (f' + 1) * (M + 1) ≤ f * (M + 1) :=
          Nat.mul_le_mul_right _ hfc
        have h2 : (f' + 1) * (M + 1) = f' * (M + 1) + (M + 1) := by ring
        omega
      · have hitems :
            (match s.items with
              | none => some none
              | some it =>
                (resolveSchemaRefsWithHistory spec n history it).map some).isSome := by
          cases hit : s.items with
          | none => rfl
          | some it =>
            have h1 : it.size < s.size := size_items_lt hit
            have h2 : resolveMeasure spec history it < n := by
              unfold resolveMeasure at hm ⊢
              omega
            obtain ⟨r, hr⟩ := Option.isSome_iff_exists.mp (ih history it h2)
            show (Option.map some
              (resolveSchemaRefsWithHistory spec n history it)).isSome = true
            rw [hr]
            rfl
        obtain ⟨items', hitems'⟩ := Option.isSome_iff_exists.mp hitems
        rw [hitems']
        have hprops :
            (resolvePropList (resolveSchemaRefsWithHistory spec n history)
              s.properties).isSome := by
          apply resolvePropList_isSome
          intro kv hkv
          have h1 : kv.2.size < s.size := size_prop_lt hkv
          have h2 : resolveMeasure spec history kv.2 < n := by
            unfold resolveMeasure at hm ⊢
            omega
          exact ih history kv.2 h2
        obtain ⟨props', hprops'⟩ := Option.isSome_iff_exists.mp hprops
        rw [Option.some_bind, hprops', Option.some_bind]
        rfl

theorem resolve_active_case (spec : OpenAPISpec) (n : Nat) (history : List String)
    (s : Schema) (hr : s.ref ≠ "") (hn : extractSchemaRefName s.ref ≠ "")
    (hh : history.contains (extractSchemaRefName s.ref) = true) :
    resolveSchemaRefsWithHistory spec (n + 1) history s = some s := by
  rw [resolveSchemaRefsWithHistory, if_pos ⟨hr, hn, hh⟩]

theorem resolve_ref_preserved (spec : OpenAPISpec) (n : Nat) (history : List String)
    (s r : Schema)
    (h : resolveSchemaRefsWithHistory spec (n + 1) history s = some r)
    (hmiss : extractSchemaRefName s.ref = "" ∨
      spec.components.schemas.lookup (extractSchemaRefName s.ref) = none) :
    r.ref = s.ref := by
  rw [resolveSchemaRefsWithHistory] at h
  split at h
  · -- active reference: the node is returned unchanged
    simp only [Option.some.injEq] at h
    rw [← h]
  · split at h
    · -- a resolvable reference contradicts `hmiss`
      next hR =>
      rcases hmiss with hm | hm
      · exact absurd hm hR.2.1
      · rw [hm] at hR
        simp at hR
    · -- fall-through: the result is rebuilt with the same `ref`
      cases hA : (match s.items with
          | none => some none
          | some it =>
            Option.map some (resolveSchemaRefsWithHistory spec n history it)) with
      | none => rw [hA, Option.none_bind] at h; cases h
      | some items' =>
        rw [hA, Option.some_bind] at h
        cases hB : resolvePropList (resolveSchemaRefsWithHistory spec n history)
            s.properties with
        | none => rw [hB, Option.none_bind] at h; cases h
        | some props' =>
          rw [hB, Option.some_bind, Option.some.injEq] at h
          rw [← h]
          rfl

/-- C2: schema reference resolution terminates for every input schema and
component set, including cyclic ones.  With the fuel set to the
computable measure the resolver always returns a result (first
conjunct); on a reference whose name is already on the active path it
returns that node with the reference left unresolved instead of
recursing (second conjunct); an un-named or missing reference passes
through with its `ref` field unchanged (third conjunct).  No error is
ever raised: the only failure channel of the embedding is fuel
exhaustion, excluded by the first conjunct. -/
theorem claim_C2_resolver_terminates (spec : OpenAPISpec) (history : List String)
    (s : Schema) :
    ((resolveSchemaRefsWithHistory spec
        (resolveMeasure spec history s + 1) history s).isSome = true)
    ∧ (∀ n : Nat, s.ref ≠ "" → extractSchemaRefName s.ref ≠ "" →
        history.contains (extractSchemaRefName s.ref) = true →
        resolveSchemaRefsWithHistory spec (n + 1) history s = some s)
    ∧ (∀ (n : Nat) (r : Schema),
        resolveSchemaRefsWithHistory spec (n + 1) history s = some r →
        (extractSchemaRefName s.ref = "" ∨
          spec.components.schemas.lookup (extractSchemaRefName s.ref) = none) →
        r.ref = s.ref) :=
  ⟨resolveFuel_isSome spec _ history s (Nat.lt_succ_self _),
   fun n hr hn hh => resolve_active_case spec n history s hr hn hh,
   fun n r h hmiss => resolve_ref_preserved spec n history s r h hmiss⟩

/-- Witness for C2 on a deliberately cyclic component set
(`A` refers to itself). -/
theorem claim_C2_witness :
    (let sA : Schema := .mk "#/components/schemas/A" "" [] none "" [] []
     let cspec : OpenAPISpec := ⟨⟨[("A", sA)]⟩⟩
     (resolveSchemaRefsWithHistory cspec
        (resolveMeasure cspec [] sA + 1) [] sA).isSome = true
     ∧ resolveSchemaRefsWithHistory cspec 1 ["A"] sA = some sA
     ∧ Schema.ref (Schema.mk "#/components/schemas/B" "" [] none "" [] [])
        = "#/components/schemas/B") := by
  refine ⟨(claim_C2_resolver_terminates _ [] _).1, ?_, ?_⟩
  · exact (claim_C2_resolver_terminates _ ["A"] _).2.1 0
      (by decide) (by decide) (by decide)
  · exact (claim_C2_resolver_terminates
        ⟨⟨[("A", Schema.mk "#/components/schemas/A" "" [] none "" [] [])]⟩⟩ []
        (Schema.mk "#/components/schemas/B" "" [] none "" [] [])).2.2 0
      (Schema.mk "#/components/schemas/B" "" [] none "" [] [])
      rfl (Or.inr rfl)

/-! ## VariableSynthesizer -/

/-- A Go `interface{}` value as used for variable defaults: `""`, `0`,
`false`, `[]interface{}{}` or `map[string]interface{}{}`. -/
inductive GoValue where
  | str (s : String)
  | intv (n : Int)
  | boolv (b : Bool)
  | emptyList
  | emptyObj
deriving DecidableEq, Repr, Inhabited

/-- `VariableProperties` of the source. -/
structure VariableProperties where
  value : GoValue
  scope : String
  name : String
  type : String
  description : String
  isRequired : Bool
  variableStringFormat : String
  displayOnWizard : Bool
  isInvisible : Bool
deriving DecidableEq, Repr, Inhabited

/-- `VariableData` of the source. -/
structure VariableData where
  schemaId : String
  properties : VariableProperties
  uniqueName : String
  objectType : String
deriving DecidableEq, Repr, Inhabited

/-- `buildRequestBodyVariable`.  `stringifyBodyInputs` is the package
global controlled by the `-stringifyBodyInputs` flag, passed explicitly. -/
def buildRequestBodyVariable (stringifyBodyInputs : Bool) (propName : String)
    (propSchema : Schema) (isRequired : Bool) : VariableData :=
  let name := "Input - " ++ HumanReadableName propName
  let descriptionPostFix :=
    if propSchema.type = "string" ∧ ¬propSchema.enum.isEmpty then
      " Valid options are: " ++ String.intercalate ", " propSchema.enum ++ "."
    else ""
  let (schemaId, varType, varValue, variableStringFormat) :
      String × String × GoValue × String :=
    if stringifyBodyInputs ∧ (propSchema.type = "integer" ∨
        propSchema.type = "number" ∨ propSchema.type = "boolean") then
      ("datatype.string", "datatype.string", .str "", "text")
    else if propSchema.type = "integer" ∨ propSchema.type = "number" then
      ("datatype.integer", "datatype.integer", .intv 0, "text")
    else if propSchema.type = "boolean" then
      ("datatype.boolean", "datatype.boolean", .boolv false, "text")
    else if propSchema.type = "array" then
      ("datatype.string", "datatype.string", .emptyList, "json")
    else if propSchema.type = "object" then
      ("datatype.string", "datatype.string", .emptyObj, "json")
    else ("datatype.string", "datatype.string", .str "", "text")
  { schemaId := schemaId
    properties :=
      { scope := "input"
        name := name
        type := varType
        description := propSchema.description ++ descriptionPostFix
        isRequired := isRequired
        value := varValue
        variableStringFormat := variableStringFormat
        displayOnWizard := true
        isInvisible := false }
    uniqueName := "variable_workflow_$" ++ propName ++ "KSUID"
    objectType := "variable_workflow" }

/-- `appendRequestBodyObjectVariables`: one input variable per body
property, iterated over the sorted property keys. -/
def appendRequestBodyObjectVariables (stringifyBodyInputs : Bool)
    (vars : List VariableData) (schema : Schema) : List VariableData :=
  if schema.properties.isEmpty then vars
  else
    vars ++ (sortedSchemaKeys schema.properties).map fun propName =>
      buildRequestBodyVariable stringifyBodyInputs propName
        ((schema.properties.lookup propName).getD Schema.empty)
        (contains schema.required propName)

/-- `isCreateOrUpdate` as computed (twice) in the source:
`strings.EqualFold` against POST/PATCH/PUT. -/
def isCreateOrUpdate (method : String) : Bool :=
  goEqualFold method "POST" || goEqualFold method "PATCH" || goEqualFold method "PUT"

/-- The response-schema output-variable loop of `GenerateWorkflowData`
(lines 1893–1927): for each property of an object response schema (when
the method is not create/update-style), a `datatype.boolean` output
variable with default `false` for boolean properties and a
`datatype.string` output variable with default `""` otherwise.  The list
order is the (arbitrary) map iteration order of `responseSchema.Properties`. -/
def responseOutputVariables (responseSchema : Schema) (method : String) :
    List VariableData :=
  if responseSchema.type = "object" ∧ ¬isCreateOrUpdate method then
    responseSchema.properties.map fun kv =>
      let dataType := if kv.2.type = "boolean" then "datatype.boolean"
        else "datatype.string"
      { schemaId := dataType
        properties :=
          { scope := "output"
            name := "Output - " ++ HumanReadableName kv.1
            type := dataType
            description := kv.2.description
            isRequired := false
            variableStringFormat := "text"
            displayOnWizard := false
            isInvisible := false
            value := if kv.2.type = "boolean" then .boolv false else .str "" }
        uniqueName := "variable_workflow_$" ++ kv.1 ++ "output" ++ "KSUID"
        objectType := "variable_workflow" }
  else []

/-! ## GenerateJsonpathQueries -/

structure JsonpathQuery where
  jsonpathQuery : String
  jsonpathQueryName : String
  jsonpathQueryType : String
  zdateTypeFormat : String
deriving DecidableEq, Repr

/-- The literal date format of the source,
`yyyy-MM-dd` quote `T` quote `HH:mm:ssZ`. -/
def zdateFormat : String := "yyyy-MM-dd" ++ sq ++ "T" ++ sq ++ "HH:mm:ssZ"

/-- `GenerateJsonpathQueries`: the fixed whole-body `Result` query,
followed (for non-create/update methods) by one query per response
property, in map iteration order. -/
def GenerateJsonpathQueries (responseSchema : Schema) (method : String) :
    List JsonpathQuery :=
  let base : List JsonpathQuery :=
    [{ jsonpathQuery := "$"
       jsonpathQueryName := "Result"
       jsonpathQueryType := "string"
       zdateTypeFormat := zdateFormat }]
  if isCreateOrUpdate method then base
  else
    base ++ responseSchema.properties.map fun kv =>
      { jsonpathQuery := "$." ++ kv.1
        jsonpathQueryName := HumanReadableName kv.1
        jsonpathQueryType :=
          if kv.2.type = "boolean" then "boolean" else "string"
        zdateTypeFormat := zdateFormat }

/-! ### Association lists as maps: lookup under permutation -/

theorem mem_lookup {k : String} {v : Schema} :
    ∀ {l : List (String × Schema)}, (l.map Prod.fst).Nodup → (k, v) ∈ l →
      l.lookup k = some v := by
  intro l
  induction l with
  | nil => intro _ h; simp at h
  | cons hd tl ih =>
    intro hnd h
    obtain ⟨a, b⟩ := hd
    rw [List.map_cons] at hnd
    have hnd' := List.nodup_cons.mp hnd
    rcases List.mem_cons.mp h with h | h
    · injection h with h1 h2
      rw [List.lookup]
      have hk : (k == a) = true := by simp [h1]
      rw [hk, h2]
    · have hkmem : k ∈ tl.map Prod.fst := List.mem_map.mpr ⟨(k, v), h, rfl⟩
      have hk : (k == a) = false := by
        simp only [beq_eq_false_iff_ne, ne_eq]
        intro hka
        subst hka
        exact hnd'.1 hkmem
      rw [List.lookup, hk]
      exact ih hnd'.2 h

theorem lookup_eq_none_iff {k : String} :
    ∀ {l : List (String × Schema)}, l.lookup k = none ↔ k ∉ l.map Prod.fst := by
  intro l
  induction l with
  | nil => simp [List.lookup]
  | cons hd tl ih =>
    obtain ⟨a, b⟩ := hd
    rw [List.lookup]
    cases hk : (k == a) with
    | true =>
      have : k = a := by simpa using hk
      simp [this]
    | false =>
      have : k ≠ a := by simpa using hk
      simp [this, ih]

theorem lookup_perm_eq {l l' : List (String × Schema)}
    (hnd : (l.map Prod.fst).Nodup) (hp : l.Perm l') (k : String) :
    l.lookup k = l'.lookup k := by
  have hnd' : (l'.map Prod.fst).Nodup := ((hp.map Prod.fst).nodup_iff).mp hnd
  cases hc : l.lookup k with
  | none =>
    have : k ∉ l.map Prod.fst := lookup_eq_none_iff.mp hc
    have : k ∉ l'.map Prod.fst := fun hm =>
      this ((hp.map Prod.fst).mem_iff.mpr hm)
    exact (lookup_eq_none_iff.mpr this).symm
  | some v =>
    exact (mem_lookup hnd' (hp.mem_iff.mp (lookup_mem hc))).symm

theorem sortedSchemaKeys_perm_eq {props props' : List (String × Schema)}
    (hp : props.Perm props') : sortedSchemaKeys props = sortedSchemaKeys props' :=
  List.eq_of_perm_of_sorted
    ((List.perm_insertionSort _ _).trans
      ((hp.map Prod.fst).trans (List.perm_insertionSort _ _).symm))
    (List.sorted_insertionSort _ _) (List.sorted_insertionSort _ _)

theorem sortedSchemaKeys_mem {props : List (String × Schema)} {k : String}
    (h : k ∈ sortedSchemaKeys props) : k ∈ props.map Prod.fst :=
  (List.perm_insertionSort _ _).mem_iff.mp h

/-- Order-independence of the body-variable pass: permuting the property
map (with distinct keys, as in a Go map) leaves the result unchanged. -/
theorem appendRequestBody_perm (stringify : Bool) (vars : List VariableData)
    (r t d : String) (it : Option Schema) (e req : List String)
    {props props' : List (String × Schema)}
    (hnd : (props.map Prod.fst).Nodup) (hp : props.Perm props') :
    appendRequestBodyObjectVariables stringify vars (Schema.mk r t props it d e req)
      = appendRequestBodyObjectVariables stringify vars
          (Schema.mk r t props' it d e req) := by
  unfold appendRequestBodyObjectVariables
  simp only [Schema.properties, Schema.required]
  have hlen := hp.length_eq
  have hempty : props.isEmpty = props'.isEmpty := by
    cases props <;> cases props' <;> simp_all
  rw [← hempty]
  by_cases he : props.isEmpty
  · simp [he]
  · simp only [he, if_neg, Bool.false_eq_true, ite_false]
    rw [← sortedSchemaKeys_perm_eq hp]
    congr 1
    apply List.map_congr_left
    intro k hk
    rw [lookup_perm_eq hnd hp k]

/-- C9: for every object-typed request-body schema, the synthesized body
input variables are emitted in ascending order of the source property
name and independently of the order in which the properties occur in the
schema map: the key list is sorted, the result is invariant under
permuting the property map, and the appended segment is exactly the
sorted key list mapped through `buildRequestBodyVariable`. -/
theorem claim_C9_body_variables_sorted (stringify : Bool) (vars : List VariableData)
    (r t d : String) (it : Option Schema) (e req : List String)
    (props props' : List (String × Schema))
    (hnd : (props.map Prod.fst).Nodup) (hp : props.Perm props') :
    List.Sorted strle (sortedSchemaKeys props)
    ∧ appendRequestBodyObjectVariables stringify vars (Schema.mk r t props it d e req)
        = appendRequestBodyObjectVariables stringify vars
            (Schema.mk r t props' it d e req)
    ∧ appendRequestBodyObjectVariables stringify vars (Schema.mk r t props it d e req)
        = (if props.isEmpty then vars
           else vars ++ (sortedSchemaKeys props).map fun k =>
             buildRequestBodyVariable stringify k
               ((props.lookup k).getD Schema.empty) (contains req k)) := by
  refine ⟨List.sorted_insertionSort _ _,
    appendRequestBody_perm stringify vars r t d it e req hnd hp, ?_⟩
  unfold appendRequestBodyObjectVariables
  simp only [Schema.properties, Schema.required]

/-- Witness for C9: two permuted two-property maps. -/
theorem claim_C9_witness :
    (let sStr : Schema := .mk "" "string" [] none "" [] []
     let props : List (String × Schema) := [("b", sStr), ("a", sStr)]
     let props' : List (String × Schema) := [("a", sStr), ("b", sStr)]
     List.Sorted strle (sortedSchemaKeys props)
     ∧ appendRequestBodyObjectVariables false []
          (Schema.mk "" "object" props none "" [] [])
        = appendRequestBodyObjectVariables false []
            (Schema.mk "" "object" props' none "" [] [])
     ∧ appendRequestBodyObjectVariables false []
          (Schema.mk "" "object" props none "" [] [])
        = (if props.isEmpty then []
           else [] ++ (sortedSchemaKeys props).map fun k =>
             buildRequestBodyVariable false k
               ((props.lookup k).getD Schema.empty) (contains [] k))) :=
  claim_C9_body_variables_sorted false [] "" "object" "" none [] []
    _ _ (by decide) (List.Perm.swap _ _ _)

/-- C10: every response-derived output variable is `datatype.boolean`
with default `false` when the response property type is `"boolean"`, and
`datatype.string` with default `""` in every other case; no other type is
produced. -/
theorem claim_C10_output_variable_types (responseSchema : Schema) (method : String)
    (v : VariableData) (hv : v ∈ responseOutputVariables responseSchema method) :
    (v.properties.type = "datatype.boolean" ∧ v.schemaId = "datatype.boolean"
      ∧ v.properties.value = GoValue.boolv false)
    ∨ (v.properties.type = "datatype.string" ∧ v.schemaId = "datatype.string"
      ∧ v.properties.value = GoValue.str "") := by
  unfold responseOutputVariables at hv
  split at hv
  · obtain ⟨kv, hkv, hveq⟩ := List.mem_map.mp hv
    by_cases hb : kv.2.type = "boolean"
    · left
      rw [← hveq]
      simp [hb]
    · right
      rw [← hveq]
      simp [hb]
  · simp at hv

/-- Witness for C10: a boolean response property. -/
theorem claim_C10_witness :
    (let resp : Schema := .mk "" "object"
        [("active", .mk "" "boolean" [] none "" [] [])] none "" [] []
     let v := (responseOutputVariables resp "GET").headI
     (v.properties.type = "datatype.boolean" ∧ v.schemaId = "datatype.boolean"
       ∧ v.properties.value = GoValue.boolv false)
     ∨ (v.properties.type = "datatype.string" ∧ v.schemaId = "datatype.string"
       ∧ v.properties.value = GoValue.str "")) :=
  claim_C10_output_variable_types
    (.mk "" "object" [("active", .mk "" "boolean" [] none "" [] [])] none "" [] [])
    "GET"
    ((responseOutputVariables
      (.mk "" "object" [("active", .mk "" "boolean" [] none "" [] [])] none "" [] [])
      "GET").headI)
    (by decide)

/-- Counterexample to C1: the response-property iterations of
`GenerateJsonpathQueries` and of the output-variable loop follow the
map's iteration order rather than sorted key order, so two runs of the
pipeline that iterate the same response-schema map in different orders
(modelled by permuted association lists) emit observably different
documents. -/
theorem claim_C1_counterexample :
    (let sStr : Schema := .mk "" "string" [] none "" [] []
     [("a", sStr), ("b", sStr)].Perm [("b", sStr), ("a", sStr)]
     ∧ GenerateJsonpathQueries (.mk "" "object" [("a", sStr), ("b", sStr)]
          none "" [] []) "GET"
        ≠ GenerateJsonpathQueries (.mk "" "object" [("b", sStr), ("a", sStr)]
            none "" [] []) "GET"
     ∧ responseOutputVariables (.mk "" "object" [("a", sStr), ("b", sStr)]
          none "" [] []) "GET"
        ≠ responseOutputVariables (.mk "" "object" [("b", sStr), ("a", sStr)]
            none "" [] []) "GET") :=
  ⟨List.Perm.swap _ _ _, by decide, by decide⟩

/-- C1 (amended): the request-body property iteration is sorted by key
and hence order-independent, but the response-schema property iterations
(jsonpath queries and output variables) follow map iteration order, so
two runs agree on those lists only up to permutation, not up to
equality. -/
theorem claim_C1_amended (props props' : List (String × Schema))
    (method : String) (stringify : Bool) (vars : List VariableData)
    (r t d : String) (it : Option Schema) (e req : List String)
    (hnd : (props.map Prod.fst).Nodup) (hp : props.Perm props') :
    (GenerateJsonpathQueries (Schema.mk r t props it d e req) method).Perm
      (GenerateJsonpathQueries (Schema.mk r t props' it d e req) method)
    ∧ (responseOutputVariables (Schema.mk r t props it d e req) method).Perm
      (responseOutputVariables (Schema.mk r t props' it d e req) method)
    ∧ appendRequestBodyObjectVariables stringify vars
        (Schema.mk r t props it d e req)
      = appendRequestBodyObjectVariables stringify vars
          (Schema.mk r t props' it d e req) := by
  refine ⟨?_, ?_, appendRequestBody_perm stringify vars r t d it e req hnd hp⟩
  · unfold GenerateJsonpathQueries
    by_cases hc : isCreateOrUpdate method = true
    · simp [hc]
    · simp only [hc, Bool.false_eq_true, ite_false, Schema.properties]
      exact List.Perm.append_left _ (hp.map _)
  · unfold responseOutputVariables
    by_cases hc : (Schema.mk r t props it d e req).type = "object"
        ∧ ¬isCreateOrUpdate method
    · rw [if_pos hc, if_pos (by simpa [Schema.type] using hc)]
      simp only [Schema.properties]
      exact hp.map _
    · rw [if_neg hc, if_neg (by simpa [Schema.type] using hc)]

/-- Witness for C1 (amended) on two permuted property maps. -/
theorem claim_C1_amended_witness :
    (let sStr : Schema := .mk "" "string" [] none "" [] []
     let s1 : Schema := .mk "" "object" [("a", sStr), ("b", sStr)] none "" [] []
     let s2 : Schema := .mk "" "object" [("b", sStr), ("a", sStr)] none "" [] []
     (GenerateJsonpathQueries s1 "GET").Perm (GenerateJsonpathQueries s2 "GET")
     ∧ (responseOutputVariables s1 "GET").Perm (responseOutputVariables s2 "GET")
     ∧ appendRequestBodyObjectVariables false [] s1
        = appendRequestBodyObjectVariables false [] s2) :=
  claim_C1_amended _ _ "GET" false [] "" "object" "" none [] []
    (by decide) (List.Perm.swap _ _ _)

/-! ## ActionGraphBuilder: conditional-split conditions

The `Condition` struct of the source has `interface{}` operands that are
either literals (string / bool / int) or nested `Condition` values; that
sum is modelled by a single tree type. -/

inductive Cond where
  | str (s : String)
  | boolv (b : Bool)
  | intv (n : Int)
  | node (left : Cond) (op : String) (right : Cond)
deriving DecidableEq, Repr

/-- `$workflow...output.variable_workflow_$StatusCodeKSUID$` as written in
the failure branch of `GenerateWorkflowData`. -/
def workflowStatusCodeOutputRef : String :=
  "$workflow.definition_workflow_$WorkflowKSUID.output.variable_workflow_$StatusCodeKSUID$"

def workflowErrorMessageOutputRef : String :=
  "$workflow.definition_workflow_$WorkflowKSUID.output.variable_workflow_$ErrorMessageKSUID$"

def ignoreIfExistInputRef : String :=
  "$workflow.definition_workflow_$WorkflowKSUID.input.variable_workflow_$ignoreIfExistKSUID$"

/-- `fmt.Sprintf("$%s.output.status_code$", apiRequestActionUniqueName)`. -/
def activityStatusCodeRef (apiRequestActionUniqueName : String) : String :=
  "$" ++ apiRequestActionUniqueName ++ ".output.status_code$"

/-- Condition of the success branch of the top-level split
(`Operator: "eq"` against the selected success code). -/
def successBranchCondition (apiRequestActionUniqueName : String)
    (successCode : Cond) : Cond :=
  .node (.str (activityStatusCodeRef apiRequestActionUniqueName)) "eq" successCode

/-- Condition of the failure branch of the top-level split
(`Operator: "ne"` against the same operands). -/
def failureBranchCondition (apiRequestActionUniqueName : String)
    (successCode : Cond) : Cond :=
  .node (.str (activityStatusCodeRef apiRequestActionUniqueName)) "ne" successCode

/-- The `idempotencyIndicator` of `GenerateWorkflowData`: a regex match of
the captured error message by default, overridden to an exact status-code
equality for `DELETE`, `GET` and `PUT`. -/
def idempotencyIndicator (method idempotencyCondition : String) : Cond :=
  if method = "DELETE" ∨ method = "GET" ∨ method = "PUT" then
    .node (.str workflowStatusCodeOutputRef) "eq" (.str idempotencyCondition)
  else
    .node (.str workflowErrorMessageOutputRef) "mregex" (.str idempotencyCondition)

/-- Condition of the tolerance branch of the nested `Skip Errors?` split:
the ignore-flag input equals `true`, conjoined with the indicator. -/
def toleranceBranchCondition (method idempotencyCondition : String) : Cond :=
  .node (.node (.str ignoreIfExistInputRef) "eq" (.boolv true)) "and"
    (idempotencyIndicator method idempotencyCondition)

/-- Condition of the failure branch of the nested split: the ignore-flag
input equals `false`. -/
def toleranceFailBranchCondition : Cond :=
  .node (.str ignoreIfExistInputRef) "eq" (.boolv false)

/-! ### A standard evaluation semantics for the generated conditions.

The conditions are executed by the external automation platform, so the
evaluator below is the natural reading of the emitted operators:
`eq`/`ne` are (negated) value equality, `and` is boolean conjunction, and
`mregex` is an abstract regex-match oracle `rx` (the regex engine is not
part of this repository).  A string operand of the `$...$` reference form
denotes a runtime value supplied by the environment `env`; any other
string operand denotes itself. -/

inductive RtValue where
  | str (s : String)
  | intv (n : Int)
  | boolv (b : Bool)
deriving DecidableEq, Repr

/-- A `$...$` runtime reference. -/
def isRef (s : String) : Bool :=
  s.toList.head? == some '$' && s.toList.getLast? == some '$' && s.toList.length != 1

def rtToString : RtValue → String
  | .str s => s
  | .intv n => toString n
  | .boolv b => if b then "true" else "false"

def isTruthy : RtValue → Bool
  | .boolv b => b
  | _ => false

def evalCond (env : String → RtValue) (rx : String → String → Bool) : Cond → RtValue
  | .str s => if isRef s then env s else .str s
  | .boolv b => .boolv b
  | .intv n => .intv n
  | .node l op r =>
    let lv := evalCond env rx l
    let rv := evalCond env rx r
    if op = "eq" then .boolv (lv == rv)
    else if op = "ne" then .boolv (!(lv == rv))
    else if op = "and" then .boolv (isTruthy lv && isTruthy rv)
    else if op = "mregex" then .boolv (rx (rtToString lv) (rtToString rv))
    else .boolv false

def evalCondB (env : String → RtValue) (rx : String → String → Bool) (c : Cond) :
    Bool :=
  isTruthy (evalCond env rx c)

/-- Counterexample to C3: the nested idempotency-tolerance split is not
jointly exhaustive.  With the ignore-flag input true but the tolerance
predicate false, neither branch condition of the `Skip Errors?` split
holds. -/
theorem claim_C3_counterexample :
    evalCondB (fun _ => RtValue.boolv true) (fun _ _ => false)
        (toleranceBranchCondition "POST" "already exists") = false
    ∧ evalCondB (fun _ => RtValue.boolv true) (fun _ _ => false)
        toleranceFailBranchCondition = false :=
  ⟨rfl, rfl⟩

/-- C3 (amended): under every environment and regex oracle, the two
branches of the top-level success/failure split are mutually exclusive
and jointly exhaustive, and the two branches of the nested
idempotency-tolerance split are mutually exclusive (but not jointly
exhaustive, see the counterexample). -/
theorem claim_C3_amended (env : String → RtValue) (rx : String → String → Bool)
    (apiRequestActionUniqueName : String) (successCode : Cond)
    (method idemCond : String) :
    (evalCondB env rx (successBranchCondition apiRequestActionUniqueName successCode)
      && evalCondB env rx (failureBranchCondition apiRequestActionUniqueName successCode))
      = false
    ∧ (evalCondB env rx (successBranchCondition apiRequestActionUniqueName successCode)
      || evalCondB env rx (failureBranchCondition apiRequestActionUniqueName successCode))
      = true
    ∧ (evalCondB env rx (toleranceBranchCondition method idemCond)
      && evalCondB env rx toleranceFailBranchCondition) = false := by
  refine ⟨?_, ?_, ?_⟩
  · simp [evalCondB, evalCond, successBranchCondition, failureBranchCondition, isTruthy]
  · simp [evalCondB, evalCond, successBranchCondition, failureBranchCondition, isTruthy]
  · have hr : isRef ignoreIfExistInputRef = true := by decide
    have h1 : evalCondB env rx (toleranceBranchCondition method idemCond)
        = ((env ignoreIfExistInputRef == RtValue.boolv true)
          && isTruthy (evalCond env rx (idempotencyIndicator method idemCond))) := by
      simp [evalCondB, evalCond, toleranceBranchCondition, hr, isTruthy]
    have h2 : evalCondB env rx toleranceFailBranchCondition
        = (env ignoreIfExistInputRef == RtValue.boolv false) := by
      simp [evalCondB, evalCond, toleranceFailBranchCondition, hr, isTruthy]
    rw [h1, h2]
    cases env ignoreIfExistInputRef with
    | boolv b => cases b <;> simp
    | str s => simp
    | intv n => simp

/-- Counterexample to C4: `PATCH` is an update-style operation (the
source's own create/update classifier returns true for it), yet its
tolerance indicator is the regex match of the captured error message, not
the exact status-code equality the claim requires for update-style
operations — only `DELETE`, `GET` and `PUT` get the status-code form. -/
theorem claim_C4_counterexample :
    isCreateOrUpdate "PATCH" = true
    ∧ idempotencyIndicator "PATCH" "404"
        = .node (.str workflowErrorMessageOutputRef) "mregex" (.str "404")
    ∧ idempotencyIndicator "PATCH" "404"
        ≠ .node (.str workflowStatusCodeOutputRef) "eq" (.str "404") :=
  ⟨by decide, rfl, by decide⟩

/-- C4 (amended): the tolerance branch condition is the ignore-flag input
being true conjoined with — for `DELETE`, `GET` and `PUT` — an exact
equality of the captured status code against the configured value, and —
for every other method, including create-style `POST` and update-style
`PATCH` — a regex match of the captured error message against the
configured pattern. -/
theorem claim_C4_amended (method idemCond : String) (env : String → RtValue)
    (rx : String → String → Bool) (hc : isRef idemCond = false) :
    toleranceBranchCondition method idemCond
      = .node (.node (.str ignoreIfExistInputRef) "eq" (.boolv true)) "and"
          (idempotencyIndicator method idemCond)
    ∧ evalCondB env rx (toleranceBranchCondition method idemCond)
      = ((env ignoreIfExistInputRef == RtValue.boolv true)
        && (if method = "DELETE" ∨ method = "GET" ∨ method = "PUT"
            then env workflowStatusCodeOutputRef == RtValue.str idemCond
            else rx (rtToString (env workflowErrorMessageOutputRef)) idemCond)) := by
  refine ⟨rfl, ?_⟩
  have hr : isRef ignoreIfExistInputRef = true := by decide
  have hrs : isRef workflowStatusCodeOutputRef = true := by decide
  have hre : isRef workflowErrorMessageOutputRef = true := by decide
  by_cases hm : method = "DELETE" ∨ method = "GET" ∨ method = "PUT"
  · rw [if_pos hm]
    simp [evalCondB, evalCond, toleranceBranchCondition, idempotencyIndicator,
      hm, hr, hrs, hc, isTruthy]
  · rw [if_neg hm]
    simp [evalCondB, evalCond, toleranceBranchCondition, idempotencyIndicator,
      hm, hr, hre, hc, isTruthy, rtToString]

/-- Witness for C4 (amended): a concrete plain-string condition. -/
theorem claim_C4_amended_witness :
    (toleranceBranchCondition "GET" "404"
      = .node (.node (.str ignoreIfExistInputRef) "eq" (.boolv true)) "and"
          (idempotencyIndicator "GET" "404")
    ∧ evalCondB (fun _ => RtValue.boolv true) (fun _ _ => false)
        (toleranceBranchCondition "GET" "404")
      = (((fun _ => RtValue.boolv true) ignoreIfExistInputRef == RtValue.boolv true)
        && (if ("GET" : String) = "DELETE" ∨ ("GET" : String) = "GET"
              ∨ ("GET" : String) = "PUT"
            then (fun _ => RtValue.boolv true) workflowStatusCodeOutputRef
              == RtValue.str "404"
            else (fun _ _ => false)
              (rtToString ((fun _ => RtValue.boolv true) workflowErrorMessageOutputRef))
              "404"))) :=
  claim_C4_amended "GET" "404" (fun _ => RtValue.boolv true) (fun _ _ => false)
    (by decide)

/-! ## Query/body parameter allow-lists (filters) -/

/-- Build the cleaned set of a Go `map[string]struct{}` filled from a
slice: trim each entry, skip empties, deduplicate (insertion order). -/
def dedupTrimmed (list : List String) : List String :=
  list.foldl (fun acc v =>
    let v := goTrimSpace v
    if v = "" ∨ acc.contains v then acc else acc ++ [v]) []

/-- `ensureQueryParamList`: clean the list, always add `"q"`, and return
the set sorted (`sort.Strings`). -/
def ensureQueryParamList (list : List String) : List String :=
  let set := dedupTrimmed list
  let set := if set.contains "q" then set else set ++ ["q"]
  set.insertionSort strle

/-- `ensureBodyParamList`: clean the list; empty cleans to `nil`
(modelled `[]`), otherwise the sorted set. -/
def ensureBodyParamList (list : List String) : List String :=
  let set := dedupTrimmed list
  if set.isEmpty then [] else set.insertionSort strle

/-- The package-level `defaultNetboxQueryFilters`. -/
def defaultNetboxQueryFilters : List (String × List String) :=
  [("dcim_devices_list",
    ["q", "name", "id", "site_id", "device_type_id", "role_id", "status",
     "tag", "has_primary_ip"])]

/-- `getQueryParamAllowSet`: the per-operation filter, falling back to the
NetBox defaults for the netbox connector; `none` when no allow-list
applies; otherwise the cleaned set with `"q"` force-included. -/
def getQueryParamAllowSet (queryParamFilter : List (String × List String))
    (connectorActionType : String) (operationId : String) :
    Option (List String) :=
  let allowed := (queryParamFilter.lookup operationId).getD []
  let allowed :=
    if allowed.isEmpty ∧ connectorActionType = "netbox.invoke_api" then
      (defaultNetboxQueryFilters.lookup operationId).getD allowed
    else allowed
  if allowed.isEmpty then none
  else
    let set := dedupTrimmed allowed
    some (if set.contains "q" then set else set ++ ["q"])

/-- C8: whenever a non-empty query-parameter allow-list applies, the
effective allow-set contains `"q"`, even if `"q"` was not listed —
both for `getQueryParamAllowSet` (per-operation filters and connector
defaults) and for `ensureQueryParamList` (batch defaults). -/
theorem claim_C8_q_always_allowed :
    (∀ (queryParamFilter : List (String × List String))
        (connectorActionType operationId : String) (s : List String),
      getQueryParamAllowSet queryParamFilter connectorActionType operationId
        = some s → s.contains "q" = true)
    ∧ ∀ l : List String, (ensureQueryParamList l).contains "q" = true := by
  constructor
  · intro qpf cat opId s h
    simp only [getQueryParamAllowSet] at h
    have key : ∀ allowed : List String,
        (if allowed.isEmpty = true then none
         else some (if (dedupTrimmed allowed).contains "q" = true
            then dedupTrimmed allowed else dedupTrimmed allowed ++ ["q"]))
          = some s → s.contains "q" = true := by
      intro allowed hh
      split at hh
      · cases hh
      · rw [Option.some.injEq] at hh
        rw [← hh]
        by_cases hq : (dedupTrimmed allowed).contains "q" = true
        · rw [if_pos hq]
          exact hq
        · rw [if_neg hq]
          simp
    split at h
    · exact key _ h
    · exact key _ h
  · intro l
    unfold ensureQueryParamList
    have hq : ∀ set : List String,
        (if set.contains "q" then set else set ++ ["q"]).contains "q" = true := by
      intro set
      by_cases hc : set.contains "q"
      · rw [if_pos hc]; exact hc
      · rw [if_neg hc]; simp
    have hperm := List.perm_insertionSort (α := String) strle
      (if (dedupTrimmed l).contains "q" then dedupTrimmed l
       else dedupTrimmed l ++ ["q"])
    have hmem : "q" ∈ (if (dedupTrimmed l).contains "q" then dedupTrimmed l
        else dedupTrimmed l ++ ["q"]) := by
      have := hq (dedupTrimmed l)
      simpa using this
    simpa using hperm.mem_iff.mpr hmem

/-- Witness for C8 on a concrete filter that does not list `"q"`. -/
theorem claim_C8_witness :
    (getQueryParamAllowSet [("op1", ["name"])] "meraki.api_request" "op1"
        = some ["name", "q"]
      → (["name", "q"] : List String).contains "q" = true)
    ∧ (ensureQueryParamList ["b", "a"]).contains "q" = true :=
  ⟨claim_C8_q_always_allowed.1 [("op1", ["name"])] "meraki.api_request" "op1"
      ["name", "q"],
   claim_C8_q_always_allowed.2 ["b", "a"]⟩

/-! ## BatchOrchestrator (`generateFromConfig` loop body) -/

/-- The mutable package-level configuration shared across batch entries.
The two filter maps are modelled extensionally as functions. -/
structure GlobalState where
  supportIdempotency : Bool
  idempotencyCondition : String
  categoryId : String
  categoryName : String
  platformName : String
  queryParamFilter : String → Option (List String)
  bodyParamFilter : String → Option (List String)

/-- `WorkflowOptions` of a batch entry. -/
structure WorkflowOptions where
  supportIdempotency : Option Bool
  idempotencyCondition : String
  categoryId : String
  categoryName : String
  platform : String

/-- `WorkflowConfig`: one batch entry. -/
structure WorkflowConfig where
  endpoint : String
  methods : List String
  queryParams : List String
  bodyParams : List String
  options : Option WorkflowOptions

/-- `setBodyParamFilter`. -/
def setBodyParamFilter (bpf : String → Option (List String))
    (operationId : String) (params : List String) :
    String → Option (List String) :=
  let opId := goTrimSpace operationId
  if opId = "" then bpf
  else
    let cleaned := dedupTrimmed params
    if cleaned.isEmpty then fun k => if k = opId then none else bpf k
    else fun k => if k = opId then some cleaned else bpf k

/-- The per-option overrides applied before rendering (only non-empty /
non-nil option fields overwrite the globals). -/
def applyOptions (st : GlobalState) (opts : Option WorkflowOptions) : GlobalState :=
  match opts with
  | none => st
  | some o =>
    let st := match o.supportIdempotency with
      | some b => { st with supportIdempotency := b }
      | none => st
    let st := if goTrimSpace o.idempotencyCondition ≠ "" then
        { st with idempotencyCondition := o.idempotencyCondition } else st
    let st := if goTrimSpace o.categoryId ≠ "" then
        { st with categoryId := o.categoryId } else st
    let st := if goTrimSpace o.categoryName ≠ "" then
        { st with categoryName := o.categoryName } else st
    if goTrimSpace o.platform ≠ "" then
      { st with platformName := o.platform } else st

/-- GET handling of the loop (lines 1467–1478): install the combined
default + per-entry query-parameter allow-list for this operation (the
combined list always contains `"q"`, hence is never empty). -/
def stepQueryFilter (st : GlobalState) (defaults : List String)
    (wf : WorkflowConfig) (method operationId : String) : GlobalState :=
  if goEqualFold method "GET"
      ∧ ¬(ensureQueryParamList (defaults ++ wf.queryParams)).isEmpty then
    { st with queryParamFilter := fun k =>
        if k = operationId
        then some (ensureQueryParamList (defaults ++ wf.queryParams))
        else st.queryParamFilter k }
  else st

/-- `appliedBodyFilter` of the loop (lines 1483–1492): a POST entry with
a non-empty body-parameter list that cleans to a non-empty set. -/
def bodyFilterApplied (wf : WorkflowConfig) (method : String) : Bool :=
  goEqualFold method "POST" && !wf.bodyParams.isEmpty
    && !(ensureBodyParamList wf.bodyParams).isEmpty

/-- Install the temporary body-parameter allow-list. -/
def stepBodyInstall (st : GlobalState) (wf : WorkflowConfig)
    (method operationId : String) : GlobalState :=
  if bodyFilterApplied wf method then
    { st with bodyParamFilter :=
        (setBodyParamFilter st.bodyParamFilter operationId
          (ensureBodyParamList wf.bodyParams)) }
  else st

/-- Restore of the five saved scalar globals after `renderWorkflow`
(lines 1494–1523). -/
def restoreScalars (saved st : GlobalState) : GlobalState :=
  { st with
    supportIdempotency := saved.supportIdempotency
    idempotencyCondition := saved.idempotencyCondition
    categoryId := saved.categoryId
    categoryName := saved.categoryName
    platformName := saved.platformName }

/-- Restore of the body-parameter filter (lines 1528–1534): put back the
previously captured entry, or delete the key. -/
def stepBodyRestore (applied : Bool) (previous : Option (List String))
    (operationId : String) (st : GlobalState) : GlobalState :=
  if applied then
    match previous with
    | some prev => { st with bodyParamFilter := fun k =>
        if k = operationId then some prev else st.bodyParamFilter k }
    | none => { st with bodyParamFilter := fun k =>
        if k = operationId then none else st.bodyParamFilter k }
  else st

/-- The effect on the shared global configuration of processing one
`(entry, method)` pair of the `generateFromConfig` loop (lines
1457–1534): install the query filter (GET), temporarily install the body
filter (POST), save the five scalar globals, apply the entry's option
overrides, render (`renderWorkflow` reads but never writes these
globals), restore the scalars, and restore the body filter.  The
previous body-filter entry is captured before installation, as in the
source. -/
def processOperationEntry (st : GlobalState) (defaults : List String)
    (wf : WorkflowConfig) (method operationId : String) : GlobalState :=
  stepBodyRestore (bodyFilterApplied wf method)
    ((stepQueryFilter st defaults wf method operationId).bodyParamFilter operationId)
    operationId
    (restoreScalars
      (stepBodyInstall (stepQueryFilter st defaults wf method operationId)
        wf method operationId)
      (applyOptions
        (stepBodyInstall (stepQueryFilter st defaults wf method operationId)
          wf method operationId)
        wf.options))

theorem applyOptions_preserves_filters (st : GlobalState)
    (o : Option WorkflowOptions) :
    (applyOptions st o).queryParamFilter = st.queryParamFilter
    ∧ (applyOptions st o).bodyParamFilter = st.bodyParamFilter := by
  cases o with
  | none => exact ⟨rfl, rfl⟩
  | some o =>
    simp only [applyOptions]
    cases o.supportIdempotency <;> split_ifs <;> exact ⟨rfl, rfl⟩

theorem stepQueryFilter_preserves (st : GlobalState) (defaults : List String)
    (wf : WorkflowConfig) (method operationId : String) :
    (stepQueryFilter st defaults wf method operationId).supportIdempotency
        = st.supportIdempotency
    ∧ (stepQueryFilter st defaults wf method operationId).idempotencyCondition
        = st.idempotencyCondition
    ∧ (stepQueryFilter st defaults wf method operationId).categoryId = st.categoryId
    ∧ (stepQueryFilter st defaults wf method operationId).categoryName
        = st.categoryName
    ∧ (stepQueryFilter st defaults wf method operationId).platformName
        = st.platformName
    ∧ (stepQueryFilter st defaults wf method operationId).bodyParamFilter
        = st.bodyParamFilter := by
  unfold stepQueryFilter
  split <;> exact ⟨rfl, rfl, rfl, rfl, rfl, rfl⟩

theorem stepBodyInstall_preserves (st : GlobalState) (wf : WorkflowConfig)
    (method operationId : String) :
    (stepBodyInstall st wf method operationId).supportIdempotency
        = st.supportIdempotency
    ∧ (stepBodyInstall st wf method operationId).idempotencyCondition
        = st.idempotencyCondition
    ∧ (stepBodyInstall st wf method operationId).categoryId = st.categoryId
    ∧ (stepBodyInstall st wf method operationId).categoryName = st.categoryName
    ∧ (stepBodyInstall st wf method operationId).platformName = st.platformName
    ∧ (stepBodyInstall st wf method operationId).queryParamFilter
        = st.queryParamFilter := by
  unfold stepBodyInstall
  split <;> exact ⟨rfl, rfl, rfl, rfl, rfl, rfl⟩

theorem setBodyParamFilter_ne {bpf : String → Option (List String)}
    {operationId : String} {params : List String} {k : String}
    (hk : k ≠ goTrimSpace operationId) :
    setBodyParamFilter bpf operationId params k = bpf k := by
  simp only [setBodyParamFilter]
  split
  · rfl
  · split
    · simp only [if_neg hk]
    · simp only [if_neg hk]

/-- Counterexample to C5: processing a GET batch entry writes the
combined query-parameter allow-list into the shared `queryParamFilter`
and never restores it, so that piece of global state is not returned to
its prior value after the entry's pipeline invocation. -/
theorem claim_C5_counterexample :
    (let st0 : GlobalState :=
      ⟨false, "", "", "", "", fun _ => none, fun _ => none⟩
     let wf : WorkflowConfig := ⟨"/dcim/devices/", ["GET"], [], [], none⟩
     (processOperationEntry st0 [] wf "GET" "dcim_devices_list").queryParamFilter
        "dcim_devices_list" = some ["q"]
     ∧ st0.queryParamFilter "dcim_devices_list" = none) :=
  ⟨rfl, rfl⟩

/-- C5 (amended): for every batch entry, the idempotency flag and
condition, category id and name, platform name, and the body-parameter
allow-list filter are restored to their prior values after the entry's
pipeline invocation (for whitespace-free operation ids, which is what
OpenAPI documents supply); the query-parameter allow-list filter is the
exception — a GET entry's combined allow-list stays installed (see the
counterexample). -/
theorem claim_C5_amended (st : GlobalState) (defaults : List String)
    (wf : WorkflowConfig) (method operationId : String)
    (hop : goTrimSpace operationId = operationId) :
    (processOperationEntry st defaults wf method operationId).supportIdempotency
        = st.supportIdempotency
    ∧ (processOperationEntry st defaults wf method operationId).idempotencyCondition
        = st.idempotencyCondition
    ∧ (processOperationEntry st defaults wf method operationId).categoryId
        = st.categoryId
    ∧ (processOperationEntry st defaults wf method operationId).categoryName
        = st.categoryName
    ∧ (processOperationEntry st defaults wf method operationId).platformName
        = st.platformName
    ∧ (processOperationEntry st defaults wf method operationId).bodyParamFilter
        = st.bodyParamFilter := by
  obtain ⟨hq1, hq2, hq3, hq4, hq5, hq6⟩ :=
    stepQueryFilter_preserves st defaults wf method operationId
  set st1 := stepQueryFilter st defaults wf method operationId with hst1
  unfold processOperationEntry
  rw [← hst1]
  set st2 := stepBodyInstall st1 wf method operationId with hst2
  obtain ⟨hi1, hi2, hi3, hi4, hi5, hiq⟩ :=
    stepBodyInstall_preserves st1 wf method operationId
  have hs1 : st2.supportIdempotency = st.supportIdempotency := hi1.trans hq1
  have hs2 : st2.idempotencyCondition = st.idempotencyCondition := hi2.trans hq2
  have hs3 : st2.categoryId = st.categoryId := hi3.trans hq3
  have hs4 : st2.categoryName = st.categoryName := hi4.trans hq4
  have hs5 : st2.platformName = st.platformName := hi5.trans hq5
  have hb2 := applyOptions_preserves_filters st2 wf.options
  unfold stepBodyRestore
  by_cases happ : bodyFilterApplied wf method = true
  · rw [if_pos happ]
    have hinstall : st2.bodyParamFilter
        = setBodyParamFilter st1.bodyParamFilter operationId
            (ensureBodyParamList wf.bodyParams) := by
      rw [hst2]
      unfold stepBodyInstall
      rw [if_pos happ]
    have hcore :
        (fun k => if k = operationId then st1.bodyParamFilter operationId
          else (restoreScalars st2
            (applyOptions st2 wf.options)).bodyParamFilter k)
        = st.bodyParamFilter := by
      rw [← hq6]
      funext k
      by_cases hk : k = operationId
      · simp [hk]
      · simp only [if_neg hk]
        show (applyOptions st2 wf.options).bodyParamFilter k = st1.bodyParamFilter k
        rw [hb2.2, hinstall]
        exact setBodyParamFilter_ne (by rw [hop]; exact hk)
    cases hprev : st1.bodyParamFilter operationId with
    | some prev =>
      refine ⟨hs1, hs2, hs3, hs4, hs5, ?_⟩
      show (fun k => if k = operationId then some prev
        else (restoreScalars st2
          (applyOptions st2 wf.options)).bodyParamFilter k) = st.bodyParamFilter
      rw [← hcore]
      funext k
      by_cases hk : k = operationId
      · simp only [hk, if_pos rfl, hprev]
      · simp only [if_neg hk]
    | none =>
      refine ⟨hs1, hs2, hs3, hs4, hs5, ?_⟩
      show (fun k => if k = operationId then none
        else (restoreScalars st2
          (applyOptions st2 wf.options)).bodyParamFilter k) = st.bodyParamFilter
      rw [← hcore]
      funext k
      by_cases hk : k = operationId
      · simp only [hk, if_pos rfl, hprev]
      · simp only [if_neg hk]
  · rw [if_neg happ]
    have hnoinstall : st2 = st1 := by
      rw [hst2]
      unfold stepBodyInstall
      rw [if_neg happ]
    refine ⟨hs1, hs2, hs3, hs4, hs5, ?_⟩
    show (applyOptions st2 wf.options).bodyParamFilter = st.bodyParamFilter
    rw [hb2.2, hnoinstall, hq6]

/-- Witness for C5 (amended) on a concrete state and entry. -/
theorem claim_C5_amended_witness :
    (let st0 : GlobalState :=
      ⟨true, "exists", "c1", "Cat", "NetBox", fun _ => none, fun _ => none⟩
     let wf : WorkflowConfig := ⟨"/dcim/devices/", ["POST"], [], ["name"],
        some ⟨some false, "409", "c2", "Other", "Meraki"⟩⟩
     (processOperationEntry st0 [] wf "POST" "dcim_devices_create").supportIdempotency
        = st0.supportIdempotency
     ∧ (processOperationEntry st0 [] wf "POST"
          "dcim_devices_create").idempotencyCondition = st0.idempotencyCondition
     ∧ (processOperationEntry st0 [] wf "POST" "dcim_devices_create").categoryId
        = st0.categoryId
     ∧ (processOperationEntry st0 [] wf "POST" "dcim_devices_create").categoryName
        = st0.categoryName
     ∧ (processOperationEntry st0 [] wf "POST" "dcim_devices_create").platformName
        = st0.platformName
     ∧ (processOperationEntry st0 [] wf "POST" "dcim_devices_create").bodyParamFilter
        = st0.bodyParamFilter) :=
  claim_C5_amended _ [] _ "POST" "dcim_devices_create" (by decide)

/-! ## ScriptPrepBuilder: request-body preparation script
(`buildRequestBodyPrepAction`) -/

/-- `BodyParam` of the source. -/
structure BodyParam where
  name : String
  required : Bool
  type : String
deriving DecidableEq, Repr, Inhabited

/-- `pythonIdentifier`: replace non-identifier characters by `_`, fall
back to `fallback` / `fallback_idx` on empty input, and guard a leading
digit with `_`. -/
def pythonIdentifier (name fallback : String) (idx : Nat) : String :=
  let name := if name = "" then fallback else name
  let clean := String.mk (name.toList.map fun c =>
    if c.isAlpha ∨ c.isDigit ∨ c = '_' then c else '_')
  let clean := if clean = "" then fallback ++ "_" ++ toString idx else clean
  match clean.toList with
  | c :: _ => if '0' ≤ c ∧ c ≤ '9' then "_" ++ clean else clean
  | [] => clean

/-- The body parameters extracted from the (object or array-of-object)
body schema, sorted by name (`sort.Slice`); the pre-sort order is the
map iteration order, which the sort makes irrelevant for the distinct
keys of a Go map. -/
def bodyParamsOf (bodySchema : Schema) : List BodyParam :=
  let params : List BodyParam :=
    if bodySchema.type = "object" then
      bodySchema.properties.map fun kv =>
        ⟨kv.1, contains bodySchema.required kv.1, kv.2.type⟩
    else if bodySchema.type = "array" then
      match bodySchema.items with
      | some it =>
        if it.type = "object" then
          it.properties.map fun kv => ⟨kv.1, contains it.required kv.1, kv.2.type⟩
        else []
      | none => []
    else []
  params.insertionSort fun a b => strle a.name b.name

/-- The workflow-input reference interpolated for a body parameter. -/
def bodyVariableRef (name : String) : String :=
  "$workflow.definition_workflow_$WorkflowKSUID.input.variable_workflow_$"
    ++ name ++ "KSUID$"

/-- The type-coercion expression for one parameter (`valueExpr`). -/
def bodyParamValueExpr (p : BodyParam) (pyVar : String) : String :=
  if p.type = "array" ∨ p.type = "object" then
    "json.loads(" ++ pyVar ++ ") if " ++ pyVar ++ " != " ++ sq ++ sq ++ " else None"
  else if p.type = "integer" then
    "int(" ++ pyVar ++ ") if " ++ pyVar ++ " != " ++ sq ++ sq ++ " else None"
  else if p.type = "number" then
    "float(" ++ pyVar ++ ") if " ++ pyVar ++ " != " ++ sq ++ sq ++ " else None"
  else if p.type = "boolean" then
    pyVar ++ ".lower() == " ++ sq ++ "true" ++ sq ++ " if " ++ pyVar
      ++ " != " ++ sq ++ sq ++ " else None"
  else pyVar

/-- The conditional field-assignment block emitted for one parameter. -/
def bodyParamBlock (p : BodyParam) : String :=
  let pyVar := pythonIdentifier p.name "param" 0
  let valueExpr := bodyParamValueExpr p pyVar
  let specialType := p.type = "array" ∨ p.type = "object" ∨ p.type = "integer"
    ∨ p.type = "number" ∨ p.type = "boolean"
  if p.required then
    if specialType then
      "if " ++ pyVar ++ " != " ++ sq ++ sq ++ ":\n"
        ++ "    request_body_object[\"" ++ p.name ++ "\"] = " ++ valueExpr ++ "\n"
    else
      "request_body_object[\"" ++ p.name ++ "\"] = " ++ pyVar ++ "\n"
  else
    "if " ++ pyVar ++ " != " ++ sq ++ sq ++ ":\n"
      ++ (if specialType then
            "    value = " ++ valueExpr ++ "\n"
              ++ "    if value is not None:\n"
              ++ "        request_body_object[\"" ++ p.name ++ "\"] = value\n"
          else
            "    request_body_object[\"" ++ p.name ++ "\"] = " ++ pyVar ++ "\n")

/-- The wrapped final line of the script
(`json.dumps([request_body_object])`). -/
def wrappedDumpsLine : String :=
  "request_body_string = json.dumps([request_body_object])\n"

/-- The unwrapped final line (`json.dumps(request_body_object)`). -/
def plainDumpsLine : String :=
  "request_body_string = json.dumps(request_body_object)\n"

/-- The Python script assembled by `buildRequestBodyPrepAction`: imports,
one input-variable binding per parameter, the empty object, one
conditional block per parameter, and the final `json.dumps` line —
array-wrapped exactly when `needsArrayWrap` holds (body schema of array
type, or an `_available_` operation id). -/
def buildRequestBodyPrepScript (bodySchema : Schema) (operationId : String) :
    String :=
  let bodyParams := bodyParamsOf bodySchema
  let header := "import json\n\n"
    ++ String.join (bodyParams.map fun p =>
        pythonIdentifier p.name "param" 0 ++ " = " ++ sq
          ++ bodyVariableRef p.name ++ sq ++ "\n")
    ++ "\nrequest_body_object = " ++ obr ++ cbr ++ "\n"
    ++ String.join (bodyParams.map bodyParamBlock)
  header ++
    (if bodySchema.type = "array" ∨ goContains operationId "_available_"
     then wrappedDumpsLine
     else plainDumpsLine)

theorem suffix_of_append_of_le_length {α : Type} {t a b : List α}
    (h : t <:+ a ++ b) (hlen : b.length ≤ t.length) : b <:+ t := by
  obtain ⟨u, hu⟩ := h
  have hl : u.length + t.length = a.length + b.length := by
    have := congrArg List.length hu
    simpa using this
  have hk : u.length + (t.length - b.length) = a.length := by omega
  have hdrop : t.drop (t.length - b.length) = b := by
    have h1 : (u ++ t).drop (u.length + (t.length - b.length))
        = t.drop (t.length - b.length) := by
      rw [← List.drop_drop, List.drop_left]
    have h2 : (u ++ t).drop (u.length + (t.length - b.length)) = b := by
      rw [hu, hk]
      exact List.drop_left a b
    rw [← h1, h2]
  rw [← hdrop]
  exact List.drop_suffix _ _

/-- C7: the request-body preparation script ends with the array-wrapped
`json.dumps([request_body_object])` line exactly when the body schema's
type is `"array"` or the operation id contains `"_available_"`; in every
other case it ends with the unwrapped `json.dumps(request_body_object)`
line (and the wrapped line does not occur as its suffix). -/
theorem claim_C7_array_wrapping (bodySchema : Schema) (operationId : String) :
    wrappedDumpsLine.toList.isSuffixOf
      (buildRequestBodyPrepScript bodySchema operationId).toList
    = (decide (bodySchema.type = "array") || goContains operationId "_available_") := by
  simp only [buildRequestBodyPrepScript]
  by_cases hc : bodySchema.type = "array" ∨ goContains operationId "_available_" = true
  · rw [if_pos hc]
    have hrhs : (decide (bodySchema.type = "array")
        || goContains operationId "_available_") = true := by
      rcases hc with h | h
      · rw [decide_eq_true h]
        rfl
      · rw [h]
        simp
    rw [hrhs]
    exact List.isSuffixOf_iff_suffix.mpr ⟨_, rfl⟩
  · rw [if_neg hc]
    obtain ⟨h1, h2⟩ := not_or.mp hc
    have hrhs : (decide (bodySchema.type = "array")
        || goContains operationId "_available_") = false := by
      rw [decide_eq_false h1, Bool.eq_false_iff.mpr h2]
      rfl
    rw [hrhs, Bool.eq_false_iff]
    intro hsuf
    have hsuffix := List.isSuffixOf_iff_suffix.mp hsuf
    have hsuffix2 : plainDumpsLine.toList <:+ wrappedDumpsLine.toList :=
      suffix_of_append_of_le_length hsuffix (by decide)
    have htrue : plainDumpsLine.toList.isSuffixOf wrappedDumpsLine.toList = true :=
      List.isSuffixOf_iff_suffix.mpr hsuffix2
    have hfalse : plainDumpsLine.toList.isSuffixOf wrappedDumpsLine.toList = false := by
      decide
    rw [hfalse] at htrue
    cases htrue

/-! ## PlaceholderAllocator (`ReplaceKSUIDs`)

The regex `\$\w+KSUID` matches a `$`, a non-empty word-character run,
and the literal `KSUID`; Go's leftmost, greedy semantics pick the
earliest `$` at which a match exists and the longest `\w+`.  Since the
five literal characters are themselves word characters, every candidate
match lies inside the maximal word run following the `$`. -/

/-- `\w` (RE2: `[0-9A-Za-z_]`). -/
def isWordChar (c : Char) : Bool := c.isAlpha || c.isDigit || c == '_'

def ksuidSuffixChars : List Char := ['K', 'S', 'U', 'I', 'D']

/-- The largest `k ≥ 1` such that the word run `r` carries the literal
`KSUID` at positions `k..k+4` (the greedy choice of the `\w+` length). -/
def lastKsuidEnd (r : List Char) : Option Nat :=
  (List.range (r.length + 1)).reverse.find? fun k =>
    decide (1 ≤ k) && decide ((r.drop k).take 5 = ksuidSuffixChars)

/-- Try to match `\w+KSUID` at the start of `cs` (the text just after a
`$`); on success return the matched characters and the rest. -/
def tokenAt (cs : List Char) : Option (List Char × List Char) :=
  match lastKsuidEnd (cs.takeWhile isWordChar) with
  | none => none
  | some k => some (cs.take (k + 5), cs.drop (k + 5))

/-- `ReplaceKSUIDs`'s scan, with fuel (one unit per loop step; the
wrapper passes the text length, and every step consumes at least one
character).  `ksuidMap` and `counter` model the memoisation map and the
number of generated identifiers; `gen n` is the `n`-th KSUID produced by
the generator. -/
def replaceKSUIDsGo (gen : Nat → String) :
    Nat → List Char → List (String × String) → Nat → List Char
  | 0, cs, _, _ => cs
  | _ + 1, [], _, _ => []
  | fuel + 1, c :: cs, ksuidMap, counter =>
    if c = '$' then
      match tokenAt cs with
      | some (tk, rest) =>
        match ksuidMap.lookup (String.mk ('$' :: tk)) with
        | some id => id.toList ++ replaceKSUIDsGo gen fuel rest ksuidMap counter
        | none =>
          (gen counter).toList ++ replaceKSUIDsGo gen fuel rest
            ((String.mk ('$' :: tk), gen counter) :: ksuidMap) (counter + 1)
      | none => c :: replaceKSUIDsGo gen fuel cs ksuidMap counter
    else c :: replaceKSUIDsGo gen fuel cs ksuidMap counter

/-- `ReplaceKSUIDs`. -/
def ReplaceKSUIDs (gen : Nat → String) (content : String) : String :=
  String.mk (replaceKSUIDsGo gen content.toList.length content.toList [] 0)

/-- Pure substitution scan: every token occurrence is replaced by
`assign token` — one fixed identifier per token. -/
def substKSUIDsGo (assign : String → String) : Nat → List Char → List Char
  | 0, cs => cs
  | _ + 1, [] => []
  | fuel + 1, c :: cs =>
    if c = '$' then
      match tokenAt cs with
      | some (tk, rest) =>
        (assign (String.mk ('$' :: tk))).toList ++ substKSUIDsGo assign fuel rest
      | none => c :: substKSUIDsGo assign fuel cs
    else c :: substKSUIDsGo assign fuel cs

/-- The distinct tokens of a text in first-occurrence order, continuing
after the already-seen tokens `seen`. -/
def collectTokensGo : Nat → List Char → List String → List String
  | 0, _, _ => []
  | _ + 1, [], _ => []
  | fuel + 1, c :: cs, seen =>
    if c = '$' then
      match tokenAt cs with
      | some (tk, rest) =>
        if seen.contains (String.mk ('$' :: tk)) then
          collectTokensGo fuel rest seen
        else
          String.mk ('$' :: tk) ::
            collectTokensGo fuel rest (seen ++ [String.mk ('$' :: tk)])
      | none => collectTokensGo fuel cs seen
    else collectTokensGo fuel cs seen

/-- Whether the text contains an (unresolved) placeholder token. -/
def containsKSUIDTokenGo : Nat → List Char → Bool
  | 0, _ => false
  | _ + 1, [] => false
  | fuel + 1, c :: cs =>
    if c = '$' then
      match tokenAt cs with
      | some _ => true
      | none => containsKSUIDTokenGo fuel cs
    else containsKSUIDTokenGo fuel cs

def containsKSUIDToken (content : String) : Bool :=
  containsKSUIDTokenGo content.toList.length content.toList

/-- Index of the first occurrence of `t`. -/
def firstIndexOf (t : String) : List String → Nat
  | [] => 0
  | s :: rest => if s == t then 0 else 1 + firstIndexOf t rest

theorem firstIndexOf_append_of_contains {t : String} :
    ∀ {l : List String} (l' : List String), l.contains t = true →
      firstIndexOf t (l ++ l') = firstIndexOf t l := by
  intro l
  induction l with
  | nil => intro l' h; simp [List.contains] at h
  | cons s rest ih =>
    intro l' h
    rw [List.contains_cons] at h
    by_cases hst : s = t
    · simp [firstIndexOf, hst]
    · have hts : (t == s) = false := by
        simp only [beq_eq_false_iff_ne]
        exact fun ht => hst ht.symm
      have hrest : rest.contains t = true := by
        rcases Bool.or_eq_true_iff.mp h with hb | hb
        · rw [hts] at hb; cases hb
        · exact hb
      have hst' : (s == t) = false := by simpa using hst
      simp only [List.cons_append, firstIndexOf, hst', Bool.false_eq_true,
        if_false, ite_false, List.append_eq]
      rw [ih l' hrest]

theorem firstIndexOf_append_cons_self {t : String} :
    ∀ {l : List String} (l' : List String), l.contains t = false →
      firstIndexOf t (l ++ t :: l') = l.length := by
  intro l
  induction l with
  | nil => intro l' _; simp [firstIndexOf]
  | cons s rest ih =>
    intro l' h
    rw [List.contains_cons] at h
    obtain ⟨hts, hrest⟩ := Bool.or_eq_false_iff.mp h
    have hst : (s == t) = false := by
      simp only [beq_eq_false_iff_ne] at hts ⊢
      exact fun hx => hts hx.symm
    simp only [List.cons_append, firstIndexOf, hst, Bool.false_eq_true, if_false,
      ite_false, List.length_cons, List.append_eq]
    rw [ih l' hrest]
    omega

theorem contains_append_strings (l l' : List String) (t : String) :
    (l ++ l').contains t = (l.contains t || l'.contains t) := by
  induction l with
  | nil => simp
  | cons s rest ih =>
    simp only [List.cons_append, List.contains_cons, ih, Bool.or_assoc]

/-- No-token texts are fixed points of the scan. -/
theorem replaceGo_of_noToken (gen : Nat → String) :
    ∀ (fuel : Nat) (cs : List Char) (m : List (String × String)) (counter : Nat),
      containsKSUIDTokenGo fuel cs = false →
      replaceKSUIDsGo gen fuel cs m counter = cs := by
  intro fuel
  induction fuel with
  | zero => intro cs m counter _; rfl
  | succ fuel ih =>
    intro cs m counter h
    cases cs with
    | nil => rfl
    | cons c cs =>
      by_cases hc : c = '$'
      · subst hc
        cases htok : tokenAt cs with
        | some p => simp [containsKSUIDTokenGo, htok] at h
        | none =>
          simp only [containsKSUIDTokenGo, htok, eq_self_iff_true, ite_true] at h
          simp only [replaceKSUIDsGo, htok, eq_self_iff_true, ite_true]
          rw [ih cs m counter h]
      · simp only [containsKSUIDTokenGo, if_neg hc] at h
        simp only [replaceKSUIDsGo, if_neg hc]
        rw [ih cs m counter h]

/-- The memoising scan is a pure substitution: it replaces every
occurrence of a token by the identifier generated for that token's
first-occurrence index. -/
theorem replaceGo_eq_substGo (gen : Nat → String) :
    ∀ (fuel : Nat) (cs : List Char) (seen : List String)
      (m : List (String × String)),
      (∀ t, m.lookup t
        = if seen.contains t then some (gen (firstIndexOf t seen)) else none) →
      replaceKSUIDsGo gen fuel cs m seen.length
        = substKSUIDsGo
            (fun t => gen (firstIndexOf t (seen ++ collectTokensGo fuel cs seen)))
            fuel cs := by
  intro fuel
  induction fuel with
  | zero => intro cs seen m _; rfl
  | succ fuel ih =>
    intro cs seen m hm
    cases cs with
    | nil => rfl
    | cons c cs =>
      by_cases hc : c = '$'
      · subst hc
        cases htok : tokenAt cs with
        | none =>
          have hcol : collectTokensGo (fuel + 1) ('$' :: cs) seen
              = collectTokensGo fuel cs seen := by
            simp [collectTokensGo, htok]
          simp only [replaceKSUIDsGo, substKSUIDsGo, htok, eq_self_iff_true,
            ite_true, hcol]
          rw [ih cs seen m hm]
        | some p =>
          obtain ⟨tk, rest⟩ := p
          by_cases hseen : seen.contains (String.mk ('$' :: tk)) = true
          · have hcol : collectTokensGo (fuel + 1) ('$' :: cs) seen
                = collectTokensGo fuel rest seen := by
              simp only [collectTokensGo, htok, eq_self_iff_true, ite_true]
              rw [if_pos hseen]
            have hlook : m.lookup (String.mk ('$' :: tk))
                = some (gen (firstIndexOf (String.mk ('$' :: tk)) seen)) := by
              rw [hm, if_pos hseen]
            simp only [replaceKSUIDsGo, substKSUIDsGo, htok, eq_self_iff_true,
              ite_true, hlook, hcol]
            rw [firstIndexOf_append_of_contains _ hseen, ih rest seen m hm]
          · have hseenF : seen.contains (String.mk ('$' :: tk)) = false :=
              Bool.eq_false_iff.mpr hseen
            have hcol : collectTokensGo (fuel + 1) ('$' :: cs) seen
                = String.mk ('$' :: tk) ::
                    collectTokensGo fuel rest (seen ++ [String.mk ('$' :: tk)]) := by
              simp only [collectTokensGo, htok, eq_self_iff_true, ite_true]
              rw [if_neg hseen]
            have hlook : m.lookup (String.mk ('$' :: tk)) = none := by
              rw [hm, if_neg hseen]
            simp only [replaceKSUIDsGo, substKSUIDsGo, htok, eq_self_iff_true,
              ite_true, hlook, hcol]
            rw [firstIndexOf_append_cons_self _ hseenF]
            -- tail: the induction hypothesis with the extended map
            have hm' : ∀ u, ((String.mk ('$' :: tk), gen seen.length) :: m).lookup u
                = if (seen ++ [String.mk ('$' :: tk)]).contains u = true
                  then some (gen (firstIndexOf u (seen ++ [String.mk ('$' :: tk)])))
                  else none := by
              intro u
              rw [List.lookup]
              cases hu : (u == String.mk ('$' :: tk)) with
              | true =>
                have hueq : u = String.mk ('$' :: tk) := by simpa using hu
                rw [hueq]
                have hcontains : (seen ++ [String.mk ('$' :: tk)]).contains
                    (String.mk ('$' :: tk)) = true := by
                  rw [contains_append_strings, List.contains_cons]
                  simp
                rw [hcontains, if_pos rfl,
                  firstIndexOf_append_cons_self ([] : List String) hseenF]
              | false =>
                rw [hm u, contains_append_strings]
                have hsingle :
                    ([String.mk ('$' :: tk)] : List String).contains u = false := by
                  rw [List.contains_cons]
                  simp [hu]
                rw [hsingle, Bool.or_false]
                by_cases hus : seen.contains u = true
                · rw [if_pos hus, if_pos hus,
                    firstIndexOf_append_of_contains _ hus]
                · rw [if_neg hus, if_neg hus]
            have hlen : seen.length + 1
                = (seen ++ [String.mk ('$' :: tk)]).length := by
              simp
            rw [hlen, ih rest (seen ++ [String.mk ('$' :: tk)]) _ hm']
            have hassoc :
                (seen ++ [String.mk ('$' :: tk)]) ++
                    collectTokensGo fuel rest (seen ++ [String.mk ('$' :: tk)])
                  = seen ++ String.mk ('$' :: tk) ::
                      collectTokensGo fuel rest (seen ++ [String.mk ('$' :: tk)]) := by
              rw [List.append_assoc]
              rfl
            rw [hassoc]
      · have hcol : collectTokensGo (fuel + 1) (c :: cs) seen
            = collectTokensGo fuel cs seen := by
          simp [collectTokensGo, hc]
        simp only [replaceKSUIDsGo, substKSUIDsGo, if_neg hc, hcol]
        rw [ih cs seen m hm]

/-- C6: the placeholder pass is idempotent on already-resolved text
(text with no remaining placeholder token is returned unchanged), and
within one pass it acts as a pure substitution: every distinct token is
replaced by the one identifier generated at its first occurrence, all
occurrences of the same token receiving the same identifier (`gen` is
the stream of fresh opaque identifiers of this run). -/
theorem claim_C6_placeholder_pass (gen : Nat → String) (content : String) :
    (containsKSUIDToken content = false → ReplaceKSUIDs gen content = content)
    ∧ ReplaceKSUIDs gen content
      = String.mk (substKSUIDsGo
          (fun t => gen (firstIndexOf t
            (collectTokensGo content.toList.length content.toList [])))
          content.toList.length content.toList) := by
  constructor
  · intro h
    unfold ReplaceKSUIDs
    rw [replaceGo_of_noToken gen _ _ [] 0 h]
    cases content
    rfl
  · unfold ReplaceKSUIDs
    exact congrArg String.mk
      (replaceGo_eq_substGo gen content.toList.length content.toList [] []
        (fun t => rfl))

/-- Witness for C6 on a token-free text. -/
theorem claim_C6_witness :
    containsKSUIDToken "variable_workflow_abc" = false
    ∧ ReplaceKSUIDs (fun n => toString n) "variable_workflow_abc"
        = "variable_workflow_abc" :=
  ⟨by decide,
   (claim_C6_placeholder_pass (fun n => toString n) "variable_workflow_abc").1
     (by decide)⟩

end WorkflowGen
